import Mathlib

/-!
Verification of the clip-orchestration core of `app/services/material.py`.

The Python source is shallowly embedded:
* Python strings are Lean `String`s; `str.split(c)` is modelled by an
  explicit recursive split on a character.
* Python `int()` / `float()` conversions are modelled on the decimal literal
  forms exercised by timestamps (optional sign, digit runs, optional
  fractional part); exponents, underscores, inf/nan and surrounding
  whitespace are not modelled.  Seconds are exact rationals `ℚ` rather than
  binary floats; every value appearing in the claims is exactly
  representable.
* Exceptions are modelled by `Option` / `Except`: a `none` / `.error` result
  stands for a raised-and-caught Python exception.
* The external media engine, the filesystem and the task-directory resolver
  are an explicit environment `Env` of oracle functions.
* The unbounded `while` padding loop is run on fuel: `none` means the loop
  has not terminated within the given fuel (for every fuel, for a genuinely
  divergent run).
-/

/-- Model of Python `str.split(c)` on the character list: splits at every
occurrence of `c`, keeping empty pieces, always returning at least one
piece. -/
def splitOnCharList (c : Char) : List Char → List (List Char)
  | [] => [[]]
  | x :: xs =>
    if x = c then [] :: splitOnCharList c xs
    else
      match splitOnCharList c xs with
      | [] => [[x]]
      | h :: t => (x :: h) :: t

/-- Model of Python `str.split(c)` at the `String` level. -/
def splitOnChar (c : Char) (s : String) : List String :=
  (splitOnCharList c s.data).map String.mk

/-- Value of a run of decimal digits. -/
def natOfDigits (l : List Char) : ℕ :=
  l.foldl (fun n c => 10 * n + (c.toNat - 48)) 0

/-- Nonempty run of decimal digits. -/
def isDigits (l : List Char) : Bool :=
  !l.isEmpty && l.all (·.isDigit)

/-- Model of Python `int(s)` on decimal literals: optional sign followed by a
nonempty digit run. -/
def pyIntChars : List Char → Option ℤ
  | [] => none
  | c :: rest =>
    if c = '+' then if isDigits rest then some (natOfDigits rest) else none
    else if c = '-' then if isDigits rest then some (-(natOfDigits rest : ℤ)) else none
    else if isDigits (c :: rest) then some (natOfDigits (c :: rest)) else none

/-- Model of Python `int(s)`. -/
def pyInt (s : String) : Option ℤ :=
  pyIntChars s.data

/-- Unsigned part of Python `float(s)`: `digits`, `digits.digits`,
`digits.` or `.digits` (at least one digit overall). -/
def pyFloatUnsigned (l : List Char) : Option ℚ :=
  let intPart := l.takeWhile (·.isDigit)
  match l.dropWhile (·.isDigit) with
  | [] => if intPart.isEmpty then none else some (natOfDigits intPart)
  | '.' :: frac =>
    if frac.all (·.isDigit) && !(intPart.isEmpty && frac.isEmpty) then
      some ((natOfDigits intPart : ℚ) + (natOfDigits frac : ℚ) / (10 : ℚ) ^ frac.length)
    else none
  | _ => none

/-- Model of Python `float(s)` on decimal literals: optional sign then an
unsigned decimal. -/
def pyFloatChars : List Char → Option ℚ
  | [] => none
  | c :: rest =>
    if c = '+' then pyFloatUnsigned rest
    else if c = '-' then (pyFloatUnsigned rest).map (fun q => -q)
    else pyFloatUnsigned (c :: rest)

/-- Model of Python `float(s)`. -/
def pyFloat (s : String) : Option ℚ :=
  pyFloatChars s.data

/-- `time_to_seconds` (inner helper of `parse_timestamp`, material.py lines
18-27): split on `:`; three components are `h:m:s` via `int/int/float`, two
are `m:s` via `int/float`, any other count falls through to
`float(parts[0])`.  `none` models a raised `ValueError`. -/
def time_to_seconds (time_str : String) : Option ℚ :=
  match splitOnChar ':' time_str with
  | [h, m, s] =>
    match pyInt h, pyInt m, pyFloat s with
    | some hq, some mq, some sq => some ((hq : ℚ) * 3600 + (mq : ℚ) * 60 + sq)
    | _, _, _ => none
  | [m, s] =>
    match pyInt m, pyFloat s with
    | some mq, some sq => some ((mq : ℚ) * 60 + sq)
    | _, _ => none
  | parts => pyFloat (parts.headD "")

/-- `parse_timestamp` (material.py lines 9-29): `start, end =
timestamp.split('-')` raises unless the split has exactly two pieces; each
piece is converted by `time_to_seconds`.  `.error` models a raised
exception. -/
def parse_timestamp (timestamp : String) : Except String (ℚ × ℚ) :=
  match splitOnChar '-' timestamp with
  | [start, end_] =>
    match time_to_seconds start, time_to_seconds end_ with
    | some s, some e => .ok (s, e)
    | _, _ => .error "ValueError"
  | _ => .error "ValueError"

/-- Concrete evaluation: pure-seconds form. -/
lemma parse_timestamp_90_125 : parse_timestamp "90-125" = .ok (90, 125) := by
  have h : parse_timestamp "90-125" = .ok (((90:ℕ):ℚ), ((125:ℕ):ℚ)) := rfl
  rw [h]; norm_num

/-- Concrete evaluation: `h:mm:ss` form. -/
lemma parse_timestamp_hms : parse_timestamp "01:02:03-01:05:00" = .ok (3723, 3900) := by
  have h : parse_timestamp "01:02:03-01:05:00" =
      .ok (((1:ℤ):ℚ) * 3600 + ((2:ℤ):ℚ) * 60 + ((3:ℕ):ℚ),
           ((1:ℤ):ℚ) * 3600 + ((5:ℤ):ℚ) * 60 + ((0:ℕ):ℚ)) := rfl
  rw [h]; norm_num

/-- Concrete evaluation: a time string with four `:`-separated parts does not
raise; the extra components are silently ignored. -/
lemma parse_timestamp_four_colon_parts : parse_timestamp "1:2:3:4-5" = .ok (1, 5) := by
  have h : parse_timestamp "1:2:3:4-5" = .ok (((1:ℕ):ℚ), ((5:ℕ):ℚ)) := rfl
  rw [h]; norm_num

lemma parse_timestamp_0_5 : parse_timestamp "0-5" = .ok (0, 5) := by
  have h : parse_timestamp "0-5" = .ok (((0:ℕ):ℚ), ((5:ℕ):ℚ)) := rfl
  rw [h]; norm_num

lemma parse_timestamp_5_12 : parse_timestamp "5-12" = .ok (5, 12) := by
  have h : parse_timestamp "5-12" = .ok (((5:ℕ):ℚ), ((12:ℕ):ℚ)) := rfl
  rw [h]; norm_num

lemma parse_timestamp_9_9p5 : parse_timestamp "9-9.5" = .ok (9, 19/2) := by
  have h : parse_timestamp "9-9.5" =
      .ok (((9:ℕ):ℚ), ((9:ℕ):ℚ) + ((5:ℕ):ℚ) / (10:ℚ) ^ (1:ℕ)) := rfl
  rw [h]; norm_num

/-- Metadata the code reads from an opened `VideoFileClip` (lines 44-47);
`fps` and the frame size are read but take no part in the clipping logic. -/
structure VideoMeta where
  w : ℕ
  h : ℕ
  fps : ℚ
  duration : ℚ
deriving DecidableEq

/-- The external collaborators of `material.py`: the task-directory
resolver, `os.path`, and the media engine.  `openVideo p = none` models
`VideoFileClip(p)` raising; `writeFails p = true` models
`write_videofile(p)` (or the subclip extraction feeding it) raising. -/
structure Env where
  taskDir : String → String
  abspath : String → String
  pathExists : String → Bool
  openVideo : String → Option VideoMeta
  writeFails : String → Bool

/-- Python truthiness of the optional `total_duration` float: `None` and
`0.0` are falsy, everything else truthy. -/
def truthy : Option ℚ → Bool
  | none => false
  | some q => decide (q ≠ 0)

/-- Python `dict` assignment `d[k] = v` on an insertion-ordered association
list: an existing key keeps its position and gets the new value, a new key
is appended. -/
def dinsert {α : Type} (l : List (String × α)) (k : String) (v : α) : List (String × α) :=
  match l with
  | [] => [(k, v)]
  | (k', v') :: rest => if k' = k then (k, v) :: rest else (k', v') :: dinsert rest k v

/-- Association-list lookup (Python `d[k]` / dict membership). -/
def lookupA {α : Type} (l : List (String × α)) (k : String) : Option α :=
  match l with
  | [] => none
  | (k', v) :: rest => if k' = k then some v else lookupA rest k

/-- `timestamp.replace(':', '_').replace('-', '_')` (lines 79 and 110). -/
def sanitizeTs (s : String) : String :=
  ⟨s.data.map (fun c => if c = ':' || c = '-' then '_' else c)⟩

/-- `os.path.join(save_dir, filename)` for the relative filenames built
here. -/
def joinPath (a b : String) : String := a ++ "/" ++ b

/-- Output path of a primary clip (lines 79-80). -/
def clip_path (save_dir timestamp : String) : String :=
  joinPath save_dir ("clip_" ++ sanitizeTs timestamp ++ ".mp4")

/-- Output path of a padding clip (lines 110-111). -/
def extra_clip_path (save_dir timestamp : String) : String :=
  joinPath save_dir ("extra_clip_" ++ sanitizeTs timestamp ++ ".mp4")

/-- Mutable state of `clip_videos`: the result dict, the durations of the
files written so far (the model of the task directory on disk), the running
total, and a ghost log of the `video.subclip(start, end)` calls made on the
source video by successful primary extractions. -/
structure PrimState where
  video_paths : List (String × String)
  fileDur : List (String × ℚ)
  current_total_duration : ℚ
  subclips : List (ℚ × ℚ)
deriving DecidableEq

/-- One iteration of the primary loop (lines 54-96) on `timestamp`.  The
returned flag records whether the iteration reached line 90 (a clip was
produced); each early `continue` and each exception caught by the inner
`try` returns the state unchanged with flag `false`. -/
def processTimestamp (env : Env) (save_dir : String) (duration : ℚ) (max_clip_duration : ℚ)
    (total_duration : Option ℚ) (st : PrimState) (timestamp : String) : PrimState × Bool :=
  match parse_timestamp timestamp with
  | .error _ => (st, false)
  | .ok (start_time, end_time) =>
    let end_time := if end_time > duration then duration else end_time
    if start_time ≥ duration then (st, false)
    else if start_time ≥ end_time then (st, false)
    else
      let clip_duration := min (end_time - start_time) max_clip_duration
      let clip_duration :=
        if truthy total_duration &&
            decide (total_duration.getD 0 < st.current_total_duration + clip_duration)
        then total_duration.getD 0 - st.current_total_duration
        else clip_duration
      let end_time := start_time + clip_duration
      let path := clip_path save_dir timestamp
      if env.writeFails path then (st, false)
      else
        ({ video_paths := dinsert st.video_paths timestamp path,
           fileDur := dinsert st.fileDur path clip_duration,
           current_total_duration := st.current_total_duration + clip_duration,
           subclips := st.subclips ++ [(start_time, end_time)] }, true)

/-- The primary `for` loop over `timestamp_terms` (lines 53-96), including
the early `break` once the total-duration target is reached (lines 90-92). -/
def primaryLoop (env : Env) (save_dir : String) (duration max_clip_duration : ℚ)
    (total_duration : Option ℚ) : PrimState → List String → PrimState
  | st, [] => st
  | st, timestamp :: rest =>
    match processTimestamp env save_dir duration max_clip_duration total_duration st timestamp with
    | (st', true) =>
      if truthy total_duration &&
          decide (total_duration.getD 0 ≤ st'.current_total_duration)
      then st'
      else primaryLoop env save_dir duration max_clip_duration total_duration st' rest
    | (st', false) => primaryLoop env save_dir duration max_clip_duration total_duration st' rest

/-- One `for` pass of the padding loop over a snapshot of
`list(video_paths.items())` (lines 100-117).  `.error` models an exception
(opening a path with no written file, or a failing write): the padding loop
has no inner `try`, so such an exception propagates to line 119. -/
def padForPass (env : Env) (save_dir : String) (total_duration : ℚ) :
    PrimState → List (String × String) → Except Unit PrimState
  | st, [] => .ok st
  | st, (timestamp, path) :: rest =>
    match lookupA st.fileDur path with
    | none => .error ()
    | some clipDur =>
      let remaining_duration := total_duration - st.current_total_duration
      if remaining_duration ≤ 0 then .ok st
      else
        let subDur := if clipDur > remaining_duration then remaining_duration else clipDur
        let new_clip_path := extra_clip_path save_dir timestamp
        if env.writeFails new_clip_path then .error ()
        else
          let st' : PrimState :=
            { video_paths := dinsert st.video_paths ("extra_" ++ timestamp) new_clip_path,
              fileDur := dinsert st.fileDur new_clip_path subDur,
              current_total_duration := st.current_total_duration + subDur,
              subclips := st.subclips }
          if total_duration ≤ st'.current_total_duration then .ok st'
          else padForPass env save_dir total_duration st' rest

/-- The padding `while` loop (lines 99-117), run on fuel: each unit of fuel
allows one `while` iteration (one snapshot pass).  `none` means the loop has
not finished within the fuel — for a run where it is `none` at every fuel,
the source loops forever. -/
def padWhile (env : Env) (save_dir : String) (total_duration : Option ℚ) :
    ℕ → PrimState → Option (Except Unit PrimState)
  | 0, st =>
    if truthy total_duration &&
        decide (st.current_total_duration < total_duration.getD 0)
    then none else some (.ok st)
  | fuel + 1, st =>
    if truthy total_duration &&
        decide (st.current_total_duration < total_duration.getD 0) then
      match padForPass env save_dir (total_duration.getD 0) st st.video_paths with
      | .error e => some (.error e)
      | .ok st' => padWhile env save_dir total_duration fuel st'
    else some (.ok st)

/-- `clip_videos` (lines 31-124).  Result `some m` is the returned dict `m`
(`some []` for the empty dict returned on a missing/unopenable source or on
an exception reaching line 119); `none` means the padding loop has not
terminated within `fuel`. -/
def clip_videos (fuel : ℕ) (env : Env) (task_id : String) (timestamp_terms : List String)
    (origin_video : String) (max_clip_duration : ℚ) (total_duration : Option ℚ) :
    Option (List (String × String)) :=
  let save_dir := env.taskDir task_id
  let origin := env.abspath origin_video
  if !env.pathExists origin then some []
  else
    match env.openVideo origin with
    | none => some []
    | some video =>
      let st0 : PrimState := ⟨[], [], 0, []⟩
      let st1 := primaryLoop env save_dir video.duration max_clip_duration total_duration
        st0 timestamp_terms
      match padWhile env save_dir total_duration fuel st1 with
      | none => none
      | some (.error _) => some []
      | some (.ok st2) => some st2.video_paths

/-- The list comprehension `[VideoFileClip(path) for path in ...]` (line
136): opens every path in order; any raise aborts the whole comprehension. -/
def openAll (env : Env) : List String → Option (List VideoMeta)
  | [] => some []
  | p :: rest =>
    match env.openVideo p, openAll env rest with
    | some clip, some clips => some (clip :: clips)
    | _, _ => none

/-- `combine_clip_videos` (lines 126-150).  The result's second component is
a ghost of the written file: the opened clips in the order they were
concatenated.  `none` models the `except` branch returning `None`: a path
that fails to open, the empty concatenation (`concatenate_videoclips([])`
raises inside the engine), or a failing write. -/
def combine_clip_videos (env : Env) (task_id : String)
    (clip_videos_map : List (String × String)) (output_path : String) :
    Option (String × List VideoMeta) :=
  match openAll env (clip_videos_map.map Prod.snd) with
  | none => none
  | some video_clips =>
    if video_clips.isEmpty then none
    else if env.writeFails output_path then none
    else some (output_path, video_clips)

/-- A key produced by the padding loop: `"extra_" + timestamp`. -/
def extraPrefixed (s : String) : Prop := ∃ u : String, s = "extra_" ++ u

/-- A benign environment: every path exists, the source opens as a
1920x1080, 30 fps video of the stated duration, and no write fails. -/
def sampleEnv (dur : ℚ) : Env :=
  { taskDir := fun t => "tasks/" ++ t,
    abspath := fun p => "/abs/" ++ p,
    pathExists := fun _ => true,
    openVideo := fun _ => some ⟨1920, 1080, 30, dur⟩,
    writeFails := fun _ => false }

lemma lookupA_dinsert_self {α : Type} (l : List (String × α)) (k : String) (v : α) :
    lookupA (dinsert l k v) k = some v := by
  induction l with
  | nil => simp [dinsert, lookupA]
  | cons p rest ih =>
    obtain ⟨k', v'⟩ := p
    by_cases h : k' = k
    · simp [dinsert, lookupA, h]
    · simp [dinsert, lookupA, h, ih]

lemma lookupA_dinsert_ne {α : Type} (l : List (String × α)) (k k' : String) (v : α)
    (h : k' ≠ k) : lookupA (dinsert l k' v) k = lookupA l k := by
  induction l with
  | nil => simp [dinsert, lookupA, h]
  | cons p rest ih =>
    obtain ⟨k'', v''⟩ := p
    by_cases h2 : k'' = k'
    · subst h2
      simp [dinsert, lookupA, h]
    · by_cases h3 : k'' = k <;> simp [dinsert, lookupA, h2, h3, ih, Ne.symm h]

lemma lookupA_isSome_dinsert {α : Type} (l : List (String × α)) (k k' : String) (v : α)
    (h : (lookupA l k).isSome) : (lookupA (dinsert l k' v) k).isSome := by
  by_cases hk : k' = k
  · subst hk; simp [lookupA_dinsert_self]
  · rwa [lookupA_dinsert_ne l k k' v hk]

lemma lookupA_mem {α : Type} {l : List (String × α)} {k : String} {v : α}
    (h : lookupA l k = some v) : (k, v) ∈ l := by
  induction l with
  | nil => simp [lookupA] at h
  | cons p rest ih =>
    obtain ⟨k', v'⟩ := p
    by_cases h2 : k' = k
    · subst h2
      simp [lookupA] at h
      simp [h]
    · simp [lookupA, h2] at h
      exact List.mem_cons_of_mem _ (ih h)

lemma mem_dinsert {α : Type} {l : List (String × α)} {k : String} {v : α}
    {p : String × α} (h : p ∈ dinsert l k v) : p ∈ l ∨ p = (k, v) := by
  induction l with
  | nil => simp [dinsert] at h; simp [h]
  | cons q rest ih =>
    obtain ⟨k', v'⟩ := q
    by_cases h2 : k' = k
    · simp [dinsert, h2] at h
      rcases h with h | h
      · right; simp [h]
      · left; exact List.mem_cons_of_mem _ h
    · simp [dinsert, h2] at h
      rcases h with h | h
      · left; simp [h]
      · rcases ih h with h3 | h3
        · left; exact List.mem_cons_of_mem _ h3
        · right; exact h3

/-- Preservation of an existing binding by a dict assignment whose value
agrees on key collision. -/
lemma lookupA_dinsert_of_agree {α : Type} {l : List (String × α)} {k : String} {v : α}
    (k' : String) (v' : α) (h : lookupA l k = some v) (hag : k' = k → v' = v) :
    lookupA (dinsert l k' v') k = some v := by
  by_cases hk : k' = k
  · subst hk; rw [lookupA_dinsert_self, hag rfl]
  · rw [lookupA_dinsert_ne l k k' v' hk]; exact h

lemma truthy_some_zero : truthy (some 0) = false := by
  unfold truthy
  exact decide_eq_false (by norm_num)

lemma truthy_none : truthy none = false := rfl

lemma processTimestamp_total_zero (env : Env) (sd : String) (D mc : ℚ) (st : PrimState)
    (ts : String) :
    processTimestamp env sd D mc (some 0) st ts = processTimestamp env sd D mc none st ts := by
  cases h : parse_timestamp ts with
  | error e => simp [processTimestamp, h]
  | ok p =>
    obtain ⟨s, e⟩ := p
    simp [processTimestamp, h, truthy_some_zero, truthy_none]

lemma primaryLoop_total_zero (env : Env) (sd : String) (D mc : ℚ) :
    ∀ (terms : List String) (st : PrimState),
      primaryLoop env sd D mc (some 0) st terms = primaryLoop env sd D mc none st terms := by
  intro terms
  induction terms with
  | nil => intro st; rfl
  | cons ts rest ih =>
    intro st
    rw [primaryLoop, primaryLoop, processTimestamp_total_zero env sd D mc]
    cases hp : processTimestamp env sd D mc none st ts with
    | mk st' flag =>
      cases flag
      · simp [ih]
      · simp [truthy_some_zero, truthy_none, ih]

lemma padWhile_false_guard (env : Env) (sd : String) (T : Option ℚ) (h : truthy T = false)
    (fuel : ℕ) (st : PrimState) : padWhile env sd T fuel st = some (.ok st) := by
  cases fuel <;> simp [padWhile, h]

/-- C10: passing `total_duration = 0` (falsy in Python) behaves exactly like
passing no target: the shrink-to-target branch, the early-`break` check and
the padding `while` loop all test `if total_duration and ...`, which is
false in both cases, so the whole run is identical. -/
theorem clip_videos_total_duration_zero_like_none (fuel : ℕ) (env : Env) (task_id : String)
    (timestamp_terms : List String) (origin_video : String) (max_clip_duration : ℚ) :
    clip_videos fuel env task_id timestamp_terms origin_video max_clip_duration (some 0) =
      clip_videos fuel env task_id timestamp_terms origin_video max_clip_duration none := by
  unfold clip_videos
  by_cases hp : env.pathExists (env.abspath origin_video)
  · simp only [hp, Bool.not_true, Bool.false_eq_true, if_false]
    cases ho : env.openVideo (env.abspath origin_video) with
    | none => rfl
    | some video =>
      simp only [primaryLoop_total_zero,
        padWhile_false_guard env _ (some 0) truthy_some_zero,
        padWhile_false_guard env _ none truthy_none]
  · simp [hp]

/-- C6: a missing source path (the `os.path.exists` guard, lines 38-40) or a
source that fails to open (`VideoFileClip` raising into the outer `except`,
lines 119-121) makes `clip_videos` return the empty mapping; no exception
reaches the caller (the model is a total function). -/
theorem clip_videos_whole_video_failure (fuel : ℕ) (env : Env) (task_id : String)
    (timestamp_terms : List String) (origin_video : String) (max_clip_duration : ℚ)
    (total_duration : Option ℚ) :
    (env.pathExists (env.abspath origin_video) = false →
      clip_videos fuel env task_id timestamp_terms origin_video max_clip_duration
        total_duration = some []) ∧
    (env.pathExists (env.abspath origin_video) = true →
      env.openVideo (env.abspath origin_video) = none →
      clip_videos fuel env task_id timestamp_terms origin_video max_clip_duration
        total_duration = some []) := by
  constructor
  · intro h
    simp [clip_videos, h]
  · intro h ho
    simp [clip_videos, h, ho]

/-- Environment in which the source video path does not exist. -/
def missingEnv : Env :=
  { taskDir := fun t => "tasks/" ++ t,
    abspath := fun p => "/abs/" ++ p,
    pathExists := fun _ => false,
    openVideo := fun _ => none,
    writeFails := fun _ => false }

/-- Environment in which the source path exists but the container cannot be
opened. -/
def unopenableEnv : Env :=
  { taskDir := fun t => "tasks/" ++ t,
    abspath := fun p => "/abs/" ++ p,
    pathExists := fun _ => true,
    openVideo := fun _ => none,
    writeFails := fun _ => false }

/-- Witness for C6 at concrete inputs. -/
theorem clip_videos_whole_video_failure_witness :
    clip_videos 0 missingEnv "task" ["0-5"] "video.mp4" 3 none = some [] ∧
    clip_videos 0 unopenableEnv "task" ["0-5"] "video.mp4" 3 none = some [] :=
  ⟨(clip_videos_whole_video_failure 0 missingEnv "task" ["0-5"] "video.mp4" 3 none).1 rfl,
   (clip_videos_whole_video_failure 0 unopenableEnv "task" ["0-5"] "video.mp4" 3 none).2 rfl rfl⟩

/-- C7: any of the per-segment failure conditions — a timestamp that fails
to parse, `start ≥ duration`, `start ≥ end` after clamping, or an extraction
error for this one timestamp — leaves the state untouched and processing
continue with exactly the remaining timestamps; no exception escapes (the
inner `try` of lines 54-96 is modelled by the skip branches being ordinary
values). -/
theorem clip_videos_per_segment_skip (env : Env) (save_dir : String)
    (duration max_clip_duration : ℚ) (total_duration : Option ℚ) (st : PrimState)
    (timestamp : String) (rest : List String)
    (hskip : (∃ err, parse_timestamp timestamp = .error err) ∨
      ∃ s e, parse_timestamp timestamp = .ok (s, e) ∧
        (duration ≤ s ∨ (if e > duration then duration else e) ≤ s ∨
          env.writeFails (clip_path save_dir timestamp) = true)) :
    primaryLoop env save_dir duration max_clip_duration total_duration st (timestamp :: rest) =
      primaryLoop env save_dir duration max_clip_duration total_duration st rest := by
  have hproc : processTimestamp env save_dir duration max_clip_duration total_duration
      st timestamp = (st, false) := by
    rcases hskip with ⟨err, herr⟩ | ⟨s, e, hok, hcond⟩
    · simp [processTimestamp, herr]
    · rcases hcond with h | h | h
      · simp [processTimestamp, hok, h]
      · by_cases h2 : duration ≤ s <;> simp [processTimestamp, hok, h, h2]
      · by_cases h2 : duration ≤ s
        · simp [processTimestamp, hok, h2]
        · by_cases h3 : (if e > duration then duration else e) ≤ s <;>
            simp [processTimestamp, hok, h, h2, h3]
  rw [primaryLoop, hproc]

/-- Witness for C7: `"9-9.5"` on a duration-9 video is clamped to end 9,
then skipped because `start ≥ end`; the batch is unaffected. -/
theorem clip_videos_per_segment_skip_witness :
    primaryLoop (sampleEnv 9) "d" 9 3 none ⟨[], [], 0, []⟩ ["9-9.5"] =
      primaryLoop (sampleEnv 9) "d" 9 3 none ⟨[], [], 0, []⟩ [] :=
  clip_videos_per_segment_skip (sampleEnv 9) "d" 9 3 none ⟨[], [], 0, []⟩ "9-9.5" []
    (Or.inr ⟨9, 19/2, parse_timestamp_9_9p5, Or.inr (Or.inl (by norm_num))⟩)

/-- C4 counterexample: `"1:2:3:4-5"` has more than 3 `:`-separated parts
(and non-numeric content is equally ignored there), yet `parse_timestamp`
returns a value instead of failing: the `else` branch of `time_to_seconds`
evaluates `float(parts[0])` for any split of length other than 2 or 3,
discarding the remaining components. -/
theorem parse_timestamp_more_colons_counterexample :
    3 < (splitOnChar ':' "1:2:3:4-5").length ∧
      parse_timestamp "1:2:3:4-5" = .ok (1, 5) :=
  ⟨by decide, parse_timestamp_four_colon_parts⟩

/-- C4 (amended): `parse_timestamp` fails whenever the text has more than 2
`-`-separated parts, or a `-`-side whose conversion fails; a side with 2 or
3 `:`-components fails on any component its converter rejects, but a side
with more than 3 `:`-components falls through to `float` of its first
component only, the rest being ignored. -/
theorem parse_timestamp_failure_modes :
    (∀ s : String, 2 < (splitOnChar '-' s).length →
       ∃ err, parse_timestamp s = .error err) ∧
    (∀ s a b, splitOnChar '-' s = [a, b] →
       (time_to_seconds a = none ∨ time_to_seconds b = none) →
       ∃ err, parse_timestamp s = .error err) ∧
    (∀ t, 4 ≤ (splitOnChar ':' t).length →
       time_to_seconds t = pyFloat ((splitOnChar ':' t).headD "")) ∧
    (∀ t c, splitOnChar ':' t = [c] → pyFloat c = none → time_to_seconds t = none) ∧
    (∀ t m s, splitOnChar ':' t = [m, s] → (pyInt m = none ∨ pyFloat s = none) →
       time_to_seconds t = none) ∧
    (∀ t h m s, splitOnChar ':' t = [h, m, s] →
       (pyInt h = none ∨ pyInt m = none ∨ pyFloat s = none) →
       time_to_seconds t = none) := by
  refine ⟨?_, ?_, ?_, ?_, ?_, ?_⟩
  · intro s h
    rcases hs : splitOnChar '-' s with _ | ⟨a, _ | ⟨b, _ | ⟨c, r⟩⟩⟩ <;>
      rw [hs] at h <;> try simp at h
    exact ⟨"ValueError", by simp [parse_timestamp, hs]⟩
  · intro s a b hs hnone
    refine ⟨"ValueError", ?_⟩
    rcases hnone with ha | hb
    · simp [parse_timestamp, hs, ha]
    · cases h2 : time_to_seconds a <;> simp [parse_timestamp, hs, h2, hb]
  · intro t h4
    rcases ht : splitOnChar ':' t with _ | ⟨c1, _ | ⟨c2, _ | ⟨c3, _ | ⟨c4, r⟩⟩⟩⟩ <;>
      rw [ht] at h4 <;> try simp at h4
    simp [time_to_seconds, ht]
  · intro t c ht hc
    simp [time_to_seconds, ht, hc]
  · intro t m s ht hnone
    rcases hnone with hm | hs2
    · simp [time_to_seconds, ht, hm]
    · cases h2 : pyInt m <;> simp [time_to_seconds, ht, h2, hs2]
  · intro t h m s ht hnone
    rcases hnone with hh | hm | hs2
    · simp [time_to_seconds, ht, hh]
    · cases h2 : pyInt h <;> simp [time_to_seconds, ht, h2, hm]
    · cases h2 : pyInt h <;> cases h3 : pyInt m <;>
        simp [time_to_seconds, ht, h2, h3, hs2]

/-- Witness for C4's amended theorem: `"1-2-3"` splits into 3 parts and
fails. -/
theorem parse_timestamp_failure_modes_witness :
    ∃ err, parse_timestamp "1-2-3" = .error err :=
  parse_timestamp_failure_modes.1 "1-2-3" (by decide)

/-- C5: `parse_timestamp` splits on `-` into two time strings and converts
each by component count (1: plain seconds, 2: `m*60+s`, 3:
`h*3600+m*60+s`), exactly — the seconds are exact rationals, with no
rounding; including the spec's two concrete evaluations. -/
theorem parse_timestamp_wellformed :
    (∀ s a b x y, splitOnChar '-' s = [a, b] → time_to_seconds a = some x →
       time_to_seconds b = some y → parse_timestamp s = .ok (x, y)) ∧
    (∀ t c v, splitOnChar ':' t = [c] → pyFloat c = some v →
       time_to_seconds t = some v) ∧
    (∀ t m s M S, splitOnChar ':' t = [m, s] → pyInt m = some M → pyFloat s = some S →
       time_to_seconds t = some ((M : ℚ) * 60 + S)) ∧
    (∀ t h m s H M S, splitOnChar ':' t = [h, m, s] → pyInt h = some H →
       pyInt m = some M → pyFloat s = some S →
       time_to_seconds t = some ((H : ℚ) * 3600 + (M : ℚ) * 60 + S)) ∧
    parse_timestamp "01:02:03-01:05:00" = .ok (3723, 3900) ∧
    parse_timestamp "90-125" = .ok (90, 125) := by
  refine ⟨?_, ?_, ?_, ?_, parse_timestamp_hms, parse_timestamp_90_125⟩
  · intro s a b x y hs ha hb
    simp [parse_timestamp, hs, ha, hb]
  · intro t c v ht hc
    simp [time_to_seconds, ht, hc]
  · intro t m s M S ht hm hs2
    simp [time_to_seconds, ht, hm, hs2]
  · intro t h m s H M S ht hh hm hs2
    simp [time_to_seconds, ht, hh, hm, hs2]

/-- Witness for C5 at `"0-5"`. -/
theorem parse_timestamp_wellformed_witness : parse_timestamp "0-5" = .ok (0, 5) := by
  have h0 : time_to_seconds "0" = some 0 := by
    have h : time_to_seconds "0" = some ((0:ℕ):ℚ) := rfl
    rw [h]; norm_num
  have h5 : time_to_seconds "5" = some 5 := by
    have h : time_to_seconds "5" = some ((5:ℕ):ℚ) := rfl
    rw [h]; norm_num
  exact parse_timestamp_wellformed.1 "0-5" "0" "5" 0 5 (by decide) h0 h5

/-- Formalisation of the spec's planned-duration rule: the parsed end is
first clamped to the video duration, the planned duration is
`min(clampedEnd - start, maxClipDuration)`, and if a target is set (truthy,
per the code's `if total_duration`) and `cumulative + planned` would exceed
it, the planned duration shrinks to exactly `target - cumulative`. -/
def specPlannedDuration (duration max_clip_duration : ℚ) (total_duration : Option ℚ)
    (cumulative s e : ℚ) : ℚ :=
  let clampedEnd := if e > duration then duration else e
  let planned := min (clampedEnd - s) max_clip_duration
  if truthy total_duration && decide (total_duration.getD 0 < cumulative + planned)
  then total_duration.getD 0 - cumulative else planned

/-- C1: a successfully processed timestamp entry produces a clip record of
exactly `specPlannedDuration`, the cumulative duration grows by exactly that
amount, the extraction requested from the source covers
`[start, start + planned)`; and once the cumulative duration has reached the
target the loop stops, leaving the remaining timestamps unprocessed. -/
theorem clip_videos_planned_duration :
    (∀ (env : Env) (save_dir : String) (duration max_clip_duration : ℚ)
       (total_duration : Option ℚ) (st : PrimState) (timestamp : String) (s e : ℚ),
       parse_timestamp timestamp = .ok (s, e) →
       s < duration → s < (if e > duration then duration else e) →
       env.writeFails (clip_path save_dir timestamp) = false →
       processTimestamp env save_dir duration max_clip_duration total_duration st timestamp =
         ({ video_paths := dinsert st.video_paths timestamp (clip_path save_dir timestamp),
            fileDur := dinsert st.fileDur (clip_path save_dir timestamp)
              (specPlannedDuration duration max_clip_duration total_duration
                st.current_total_duration s e),
            current_total_duration := st.current_total_duration +
              specPlannedDuration duration max_clip_duration total_duration
                st.current_total_duration s e,
            subclips := st.subclips ++ [(s, s +
              specPlannedDuration duration max_clip_duration total_duration
                st.current_total_duration s e)] }, true)) ∧
    (∀ (env : Env) (save_dir : String) (duration max_clip_duration : ℚ)
       (total_duration : Option ℚ) (st st' : PrimState) (timestamp : String)
       (rest : List String),
       processTimestamp env save_dir duration max_clip_duration total_duration st timestamp =
         (st', true) →
       truthy total_duration = true →
       total_duration.getD 0 ≤ st'.current_total_duration →
       primaryLoop env save_dir duration max_clip_duration total_duration
         st (timestamp :: rest) = st') ∧
    primaryLoop (sampleEnv 10) "d" 10 3 none ⟨[], [], 0, []⟩ ["0-5", "5-12"] =
      ⟨[("0-5", clip_path "d" "0-5"), ("5-12", clip_path "d" "5-12")],
       [(clip_path "d" "0-5", 3), (clip_path "d" "5-12", 3)], 6, [(0, 3), (5, 8)]⟩ := by
  have hstep : ∀ (env : Env) (save_dir : String) (duration max_clip_duration : ℚ)
      (total_duration : Option ℚ) (st : PrimState) (timestamp : String) (s e : ℚ),
      parse_timestamp timestamp = .ok (s, e) →
      s < duration → s < (if e > duration then duration else e) →
      env.writeFails (clip_path save_dir timestamp) = false →
      processTimestamp env save_dir duration max_clip_duration total_duration st timestamp =
        ({ video_paths := dinsert st.video_paths timestamp (clip_path save_dir timestamp),
           fileDur := dinsert st.fileDur (clip_path save_dir timestamp)
             (specPlannedDuration duration max_clip_duration total_duration
               st.current_total_duration s e),
           current_total_duration := st.current_total_duration +
             specPlannedDuration duration max_clip_duration total_duration
               st.current_total_duration s e,
           subclips := st.subclips ++ [(s, s +
             specPlannedDuration duration max_clip_duration total_duration
               st.current_total_duration s e)] }, true) := by
    intro env save_dir duration max_clip_duration total_duration st timestamp s e hok hs hse hw
    have hs' : ¬ duration ≤ s := not_le.mpr hs
    have hse' : ¬ (if e > duration then duration else e) ≤ s := not_le.mpr hse
    simp only [processTimestamp, hok, hs', hse', hw, specPlannedDuration,
      ge_iff_le, if_false, Bool.false_eq_true]
  refine ⟨hstep, ?_, ?_⟩
  · intro env save_dir duration max_clip_duration total_duration st st' timestamp rest hproc
      htr hle
    rw [primaryLoop, hproc]
    simp [htr, hle]
  · have h1 := hstep (sampleEnv 10) "d" 10 3 none ⟨[], [], 0, []⟩ "0-5" 0 5
      parse_timestamp_0_5 (by norm_num) (by norm_num) rfl
    have hp1 : specPlannedDuration 10 3 none 0 0 5 = 3 := by
      norm_num [specPlannedDuration, truthy, min_def]
    rw [hp1] at h1
    have h2 := hstep (sampleEnv 10) "d" 10 3 none
      ⟨[("0-5", clip_path "d" "0-5")], [(clip_path "d" "0-5", 3)], 0 + 3, [] ++ [(0, 0 + 3)]⟩
      "5-12" 5 12 parse_timestamp_5_12 (by norm_num) (by norm_num) rfl
    have hp2 : specPlannedDuration 10 3 none (0 + 3) 5 12 = 3 := by
      norm_num [specPlannedDuration, truthy, min_def]
    rw [hp2] at h2
    rw [primaryLoop]
    rw [show dinsert ([] : List (String × String)) "0-5" (clip_path "d" "0-5") =
      [("0-5", clip_path "d" "0-5")] from rfl,
      show dinsert ([] : List (String × ℚ)) (clip_path "d" "0-5") 3 =
      [(clip_path "d" "0-5", 3)] from rfl] at h1
    rw [h1]
    simp only [truthy, Bool.false_and, Bool.false_eq_true, if_false]
    rw [primaryLoop]
    rw [h2]
    simp only [truthy, Bool.false_and, Bool.false_eq_true, if_false]
    rw [primaryLoop]
    norm_num [dinsert]
    exact ⟨by decide, by decide⟩

lemma openAll_eq_none_of_mem (env : Env) {l : List String} {p : String}
    (hp : p ∈ l) (ho : env.openVideo p = none) : openAll env l = none := by
  induction l with
  | nil => simp at hp
  | cons a rest ih =>
    rcases List.mem_cons.mp hp with h | h
    · subst h
      simp [openAll, ho]
    · cases h2 : env.openVideo a <;> simp [openAll, h2, ih h]

lemma openAll_eq_map (env : Env) {l : List String} {g : String → VideoMeta}
    (h : ∀ p ∈ l, env.openVideo p = some (g p)) : openAll env l = some (l.map g) := by
  induction l with
  | nil => rfl
  | cons a rest ih =>
    have ha := h a (List.mem_cons_self a rest)
    have hrest := ih (fun p hp => h p (List.mem_cons_of_mem a hp))
    simp [openAll, ha, hrest]

/-- C9: `combine_clip_videos` opens the given clips and concatenates them in
exactly the given order, returning the output path on success; any failure —
an unopenable input, the empty clip collection (`concatenate_videoclips` of
an empty list raises), or a failing write — yields `None` instead of an
exception or a partial output reported as success. -/
theorem combine_clip_videos_contract :
    (∀ (env : Env) (task_id : String) (m : List (String × String)) (out p : String),
       p ∈ m.map Prod.snd → env.openVideo p = none →
       combine_clip_videos env task_id m out = none) ∧
    (∀ (env : Env) (task_id out : String),
       combine_clip_videos env task_id [] out = none) ∧
    (∀ (env : Env) (task_id : String) (m : List (String × String)) (out : String)
       (g : String → VideoMeta),
       (∀ p ∈ m.map Prod.snd, env.openVideo p = some (g p)) → m ≠ [] →
       env.writeFails out = false →
       combine_clip_videos env task_id m out = some (out, (m.map Prod.snd).map g)) := by
  refine ⟨?_, ?_, ?_⟩
  · intro env task_id m out p hp ho
    simp [combine_clip_videos, openAll_eq_none_of_mem env hp ho]
  · intro env task_id out
    rfl
  · intro env task_id m out g hall hne hw
    rw [combine_clip_videos, openAll_eq_map env hall]
    have hm : ((m.map Prod.snd).map g).isEmpty = false := by
      cases m with
      | nil => exact absurd rfl hne
      | cons a rest => simp
    simp [hm, hw]
    exact hne

lemma splitOnCharList_head_cons (c x : Char) (xs : List Char) (hx : x ≠ c) :
    ∃ h t, splitOnCharList c (x :: xs) = (x :: h) :: t := by
  simp only [splitOnCharList, if_neg hx]
  cases hsp : splitOnCharList c xs with
  | nil => exact ⟨[], [], rfl⟩
  | cons h t => exact ⟨h, t, rfl⟩

lemma pyIntChars_e (rest : List Char) : pyIntChars ('e' :: rest) = none := by
  have h1 : isDigits ('e' :: rest) = false := by
    simp [isDigits]
  simp [pyIntChars, h1]

lemma pyFloatChars_e (rest : List Char) : pyFloatChars ('e' :: rest) = none := rfl

lemma time_to_seconds_data_e (a : String) (l : List Char) (ha : a.data = 'e' :: l) :
    time_to_seconds a = none := by
  obtain ⟨h, t, ht⟩ := splitOnCharList_head_cons ':' 'e' l (by decide)
  have hsp : splitOnChar ':' a = String.mk ('e' :: h) :: t.map String.mk := by
    rw [splitOnChar, ha, ht]; rfl
  rcases t with _ | ⟨x, _ | ⟨y, _ | ⟨z, r⟩⟩⟩
  · rw [time_to_seconds, hsp]
    exact pyFloatChars_e h
  · rw [time_to_seconds, hsp]
    have hm : pyInt (String.mk ('e' :: h)) = none := pyIntChars_e h
    simp [hm]
  · rw [time_to_seconds, hsp]
    have hm : pyInt (String.mk ('e' :: h)) = none := pyIntChars_e h
    simp [hm]
  · rw [time_to_seconds, hsp]
    exact pyFloatChars_e h

lemma extra_key_inj {u u' : String} (h : ("extra_" ++ u : String) = "extra_" ++ u') :
    u = u' := by
  have h2 := congrArg String.data h
  simp [String.data_append] at h2
  cases u with
  | mk ud =>
    cases u' with
    | mk ud' =>
      simp at h2
      exact congrArg String.mk h2

/-- A timestamp accepted by `parse_timestamp` cannot start with `"extra_"`:
its first character would be `'e'`, which no successful `int`/`float`
conversion accepts as a leading character. -/
lemma parse_timestamp_ok_not_extraPrefixed {ts : String} {v : ℚ × ℚ}
    (hok : parse_timestamp ts = .ok v) : ¬ extraPrefixed ts := by
  rintro ⟨u, rfl⟩
  have hdata : ("extra_" ++ u).data = 'e' :: ('x' :: 't' :: 'r' :: 'a' :: '_' :: u.data) := by
    simp [String.data_append]
  obtain ⟨h, t, ht⟩ :=
    splitOnCharList_head_cons '-' 'e' ('x' :: 't' :: 'r' :: 'a' :: '_' :: u.data) (by decide)
  have hsp : splitOnChar '-' ("extra_" ++ u) = String.mk ('e' :: h) :: t.map String.mk := by
    rw [splitOnChar, hdata, ht]; rfl
  rcases t with _ | ⟨b, _ | ⟨c2, r⟩⟩
  · rw [parse_timestamp, hsp] at hok
    exact Except.noConfusion hok
  · have hnone := time_to_seconds_data_e (String.mk ('e' :: h)) h rfl
    rw [parse_timestamp, hsp] at hok
    simp [hnone] at hok
  · rw [parse_timestamp, hsp] at hok
    exact Except.noConfusion hok

/-- Every binding of the result dict is canonical: an original timestamp key
mapping to its `clip_...` path, or an `"extra_"`-prefixed key mapping to its
`extra_clip_...` path.  Both paths are functions of the key alone, which is
what makes re-insertion value-preserving. -/
def WFpaths (sd : String) (l : List (String × String)) : Prop :=
  ∀ p ∈ l, (¬ extraPrefixed p.1 ∧ p.2 = clip_path sd p.1) ∨
    (∃ u, p.1 = "extra_" ++ u ∧ p.2 = extra_clip_path sd u)

lemma WFpaths_nil (sd : String) : WFpaths sd [] := by
  intro p hp
  simp at hp

lemma WFpaths_dinsert_primary {sd : String} {l : List (String × String)} {ts : String}
    (hwf : WFpaths sd l) (hts : ¬ extraPrefixed ts) :
    WFpaths sd (dinsert l ts (clip_path sd ts)) := by
  intro p hp
  rcases mem_dinsert hp with h | h
  · exact hwf p h
  · subst h
    exact Or.inl ⟨hts, rfl⟩

lemma WFpaths_dinsert_extra {sd : String} {l : List (String × String)} {u : String}
    (hwf : WFpaths sd l) :
    WFpaths sd (dinsert l ("extra_" ++ u) (extra_clip_path sd u)) := by
  intro p hp
  rcases mem_dinsert hp with h | h
  · exact hwf p h
  · subst h
    exact Or.inr ⟨u, rfl, rfl⟩

lemma lookupA_preserved_primary {sd : String} {l : List (String × String)} {k v ts : String}
    (hwf : WFpaths sd l) (hts : ¬ extraPrefixed ts) (hk : lookupA l k = some v) :
    lookupA (dinsert l ts (clip_path sd ts)) k = some v := by
  apply lookupA_dinsert_of_agree _ _ hk
  intro he
  subst he
  rcases hwf (ts, v) (lookupA_mem hk) with ⟨_, hv⟩ | ⟨u, hu, _⟩
  · exact hv.symm
  · exact absurd ⟨u, hu⟩ hts

lemma lookupA_preserved_extra {sd : String} {l : List (String × String)} {k v u : String}
    (hwf : WFpaths sd l) (hk : lookupA l k = some v) :
    lookupA (dinsert l ("extra_" ++ u) (extra_clip_path sd u)) k = some v := by
  apply lookupA_dinsert_of_agree _ _ hk
  intro he
  rcases hwf (k, v) (lookupA_mem hk) with ⟨hne, _⟩ | ⟨u', hu', hv⟩
  · exact absurd ⟨u, he.symm⟩ hne
  · have huu : u = u' := extra_key_inj (he.trans hu')
    rw [huu]
    exact hv.symm

/-- The primary iteration either leaves the dict untouched or performs the
single canonical insertion for a timestamp that parsed successfully. -/
lemma processTimestamp_paths_cases (env : Env) (sd : String) (D mc : ℚ) (T : Option ℚ)
    (st : PrimState) (ts : String) :
    (processTimestamp env sd D mc T st ts).1.video_paths = st.video_paths ∨
    ((∃ v, parse_timestamp ts = .ok v) ∧
      (processTimestamp env sd D mc T st ts).1.video_paths =
        dinsert st.video_paths ts (clip_path sd ts)) := by
  cases hok : parse_timestamp ts with
  | error e => left; simp [processTimestamp, hok]
  | ok p =>
    obtain ⟨s, e⟩ := p
    by_cases h1 : s ≥ D
    · left; simp [processTimestamp, hok, h1]
    · by_cases h2 : s ≥ (if e > D then D else e)
      · left; simp [processTimestamp, hok, h1, h2]
      · by_cases h3 : env.writeFails (clip_path sd ts) = true
        · left; simp [processTimestamp, hok, h1, h2, h3]
        · right
          refine ⟨⟨(s, e), rfl⟩, ?_⟩
          simp only [Bool.not_eq_true] at h3
          simp [processTimestamp, hok, h1, h2, h3]

lemma processTimestamp_WF_lookup (env : Env) (sd : String) (D mc : ℚ) (T : Option ℚ)
    (st : PrimState) (ts : String) (hwf : WFpaths sd st.video_paths) :
    WFpaths sd (processTimestamp env sd D mc T st ts).1.video_paths ∧
    (∀ k v, lookupA st.video_paths k = some v →
      lookupA (processTimestamp env sd D mc T st ts).1.video_paths k = some v) := by
  rcases processTimestamp_paths_cases env sd D mc T st ts with h | ⟨⟨v0, hok⟩, h⟩
  · rw [h]
    exact ⟨hwf, fun k v hk => hk⟩
  · rw [h]
    have hts := parse_timestamp_ok_not_extraPrefixed hok
    exact ⟨WFpaths_dinsert_primary hwf hts,
      fun k v hk => lookupA_preserved_primary hwf hts hk⟩

lemma primaryLoop_WF_lookup (env : Env) (sd : String) (D mc : ℚ) (T : Option ℚ) :
    ∀ (terms : List String) (st : PrimState), WFpaths sd st.video_paths →
      WFpaths sd (primaryLoop env sd D mc T st terms).video_paths ∧
      ∀ k v, lookupA st.video_paths k = some v →
        lookupA (primaryLoop env sd D mc T st terms).video_paths k = some v := by
  intro terms
  induction terms with
  | nil =>
    intro st hwf
    exact ⟨hwf, fun k v hk => hk⟩
  | cons ts rest ih =>
    intro st hwf
    obtain ⟨hwf1, pres1⟩ := processTimestamp_WF_lookup env sd D mc T st ts hwf
    rw [primaryLoop]
    cases hp : processTimestamp env sd D mc T st ts with
    | mk st1 flag =>
      rw [hp] at hwf1 pres1
      cases flag
      · obtain ⟨hwf2, pres2⟩ := ih st1 hwf1
        exact ⟨hwf2, fun k v hk => pres2 k v (pres1 k v hk)⟩
      · by_cases hbr : (truthy T && decide (T.getD 0 ≤ st1.current_total_duration)) = true
        · simp only [hbr, if_true]
          exact ⟨hwf1, pres1⟩
        · simp only [Bool.not_eq_true] at hbr
          simp only [hbr, Bool.false_eq_true, if_false]
          obtain ⟨hwf2, pres2⟩ := ih st1 hwf1
          exact ⟨hwf2, fun k v hk => pres2 k v (pres1 k v hk)⟩

lemma padForPass_WF_lookup (env : Env) (sd : String) (T : ℚ) :
    ∀ (snap : List (String × String)) (st : PrimState), WFpaths sd st.video_paths →
      ∀ st', padForPass env sd T st snap = .ok st' →
        WFpaths sd st'.video_paths ∧
        ∀ k v, lookupA st.video_paths k = some v →
          lookupA st'.video_paths k = some v := by
  intro snap
  induction snap with
  | nil =>
    intro st hwf st' h
    rw [padForPass] at h
    cases h
    exact ⟨hwf, fun k v hk => hk⟩
  | cons p rest ih =>
    obtain ⟨ts, path⟩ := p
    intro st hwf st' h
    rw [padForPass] at h
    cases hfd : lookupA st.fileDur path with
    | none =>
      simp only [hfd] at h
      exact Except.noConfusion h
    | some clipDur =>
      simp only [hfd] at h
      by_cases hrem : T - st.current_total_duration ≤ 0
      · rw [if_pos hrem] at h
        cases h
        exact ⟨hwf, fun k v hk => hk⟩
      · rw [if_neg hrem] at h
        cases hw : env.writeFails (extra_clip_path sd ts) with
        | true =>
          rw [hw] at h
          simp at h
        | false =>
          rw [hw] at h
          simp only [Bool.false_eq_true, if_false] at h
          set st1 : PrimState :=
            { video_paths := dinsert st.video_paths ("extra_" ++ ts) (extra_clip_path sd ts),
              fileDur := dinsert st.fileDur (extra_clip_path sd ts)
                (if clipDur > T - st.current_total_duration
                 then T - st.current_total_duration else clipDur),
              current_total_duration := st.current_total_duration +
                (if clipDur > T - st.current_total_duration
                 then T - st.current_total_duration else clipDur),
              subclips := st.subclips } with hst1
          have hwf1 : WFpaths sd st1.video_paths := WFpaths_dinsert_extra hwf
          have pres1 : ∀ k v, lookupA st.video_paths k = some v →
              lookupA st1.video_paths k = some v :=
            fun k v hk => lookupA_preserved_extra hwf hk
          by_cases hdone : T ≤ st1.current_total_duration
          · rw [if_pos hdone] at h
            cases h
            exact ⟨hwf1, pres1⟩
          · rw [if_neg hdone] at h
            obtain ⟨hwf2, pres2⟩ := ih st1 hwf1 st' h
            exact ⟨hwf2, fun k v hk => pres2 k v (pres1 k v hk)⟩

lemma padWhile_WF_lookup (env : Env) (sd : String) (T : Option ℚ) :
    ∀ (fuel : ℕ) (st st' : PrimState), WFpaths sd st.video_paths →
      padWhile env sd T fuel st = some (.ok st') →
      ∀ k v, lookupA st.video_paths k = some v → lookupA st'.video_paths k = some v := by
  intro fuel
  induction fuel with
  | zero =>
    intro st st' hwf h k v hk
    rw [padWhile] at h
    split at h
    · exact absurd h (by simp)
    · cases h
      exact hk
  | succ n ih =>
    intro st st' hwf h k v hk
    rw [padWhile] at h
    split at h
    · cases hpp : padForPass env sd (T.getD 0) st st.video_paths with
      | error e =>
        rw [hpp] at h
        simp at h
      | ok st1 =>
        rw [hpp] at h
        obtain ⟨hwf1, pres1⟩ :=
          padForPass_WF_lookup env sd (T.getD 0) st.video_paths st hwf st1 hpp
        exact ih st1 st' hwf1 h k v (pres1 k v hk)
    · cases h
      exact hk

/-- C8: once a binding (original-timestamp key or `"extra_"` key) is in the
result dict, its value never changes: through the rest of the primary loop
and through arbitrarily many padding passes (where the same `"extra_"` key
can be re-assigned, always with the same path, a function of the key), the
final mapping still sends that key to the path recorded at insertion. -/
theorem clip_videos_records_never_mutated :
    (∀ (env : Env) (sd : String) (D mc : ℚ) (T : Option ℚ) (st : PrimState)
       (terms : List String) (k v : String), WFpaths sd st.video_paths →
       lookupA st.video_paths k = some v →
       lookupA (primaryLoop env sd D mc T st terms).video_paths k = some v) ∧
    (∀ (env : Env) (sd : String) (T : Option ℚ) (fuel : ℕ) (st st' : PrimState)
       (k v : String), WFpaths sd st.video_paths →
       padWhile env sd T fuel st = some (.ok st') →
       lookupA st.video_paths k = some v → lookupA st'.video_paths k = some v) :=
  ⟨fun env sd D mc T st terms k v hwf hk =>
    (primaryLoop_WF_lookup env sd D mc T terms st hwf).2 k v hk,
   fun env sd T fuel st st' k v hwf hpad hk =>
    padWhile_WF_lookup env sd T fuel st st' hwf hpad k v hk⟩

/-- Witness for C8: an existing binding survives the processing of a further
timestamp. -/
theorem clip_videos_records_never_mutated_witness :
    lookupA (primaryLoop (sampleEnv 10) "d" 10 3 none
      ⟨[("0-5", clip_path "d" "0-5")], [], 0, []⟩ ["5-12"]).video_paths "0-5" =
      some (clip_path "d" "0-5") := by
  have hwf : WFpaths "d" [("0-5", clip_path "d" "0-5")] := by
    intro p hp
    simp at hp
    subst hp
    left
    refine ⟨?_, rfl⟩
    rintro ⟨u, hu⟩
    have h2 := congrArg String.data hu
    simp [String.data_append] at h2
  exact clip_videos_records_never_mutated.1 (sampleEnv 10) "d" 10 3 none
    ⟨[("0-5", clip_path "d" "0-5")], [], 0, []⟩ ["5-12"] "0-5" (clip_path "d" "0-5")
    hwf (by simp [lookupA])

lemma padWhile_empty_paths_diverges (env : Env) (sd : String) (T : ℚ) (st : PrimState)
    (h1 : st.video_paths = []) (h2 : st.current_total_duration < T) (h3 : T ≠ 0) :
    ∀ fuel, padWhile env sd (some T) fuel st = none := by
  have hg : (truthy (some T) &&
      decide (st.current_total_duration < (some T).getD 0)) = true := by
    simp [truthy]
    exact ⟨h3, h2⟩
  intro fuel
  induction fuel with
  | zero => rw [padWhile, if_pos hg]
  | succ n ih =>
    rw [padWhile, if_pos hg, h1]
    exact ih

/-- C3: with a target set but no produced clip records (here: an existing,
openable 10 s source and an empty timestamp list), the padding `while` loop
makes no progress and has no guarded exit: for every fuel the run is still
unfinished, i.e. the source loops forever instead of terminating. -/
theorem clip_videos_empty_records_diverges (fuel : ℕ) :
    clip_videos fuel (sampleEnv 10) "task" [] "video.mp4" 3 (some 5) = none := by
  have hpad := padWhile_empty_paths_diverges (sampleEnv 10)
    ((sampleEnv 10).taskDir "task") 5 ⟨[], [], 0, []⟩ rfl (by norm_num) (by norm_num) fuel
  simp [clip_videos, primaryLoop, sampleEnv] at hpad ⊢
  rw [hpad]

lemma nonneg_dinsert {l : List (String × ℚ)} {k : String} {v : ℚ}
    (hall : ∀ p d, lookupA l p = some d → 0 ≤ d) (hv : 0 ≤ v) :
    ∀ p d, lookupA (dinsert l k v) p = some d → 0 ≤ d := by
  intro p d hp
  by_cases hk : k = p
  · subst hk
    rw [lookupA_dinsert_self] at hp
    injection hp with hd
    rw [← hd]
    exact hv
  · rw [lookupA_dinsert_ne _ _ _ _ hk] at hp
    exact hall p d hp

/-- Invariant of the padding loop used to prove C2: the positive-duration
record `(k₀, p₀)` of duration `d₀` stays in the dict with its file
untouched, every recorded path has a written file, all written durations are
nonnegative, and the cumulative duration never exceeds the target. -/
def PadInv (sd k₀ p₀ : String) (d₀ T : ℚ) (st : PrimState) : Prop :=
  lookupA st.video_paths k₀ = some p₀ ∧
  lookupA st.fileDur p₀ = some d₀ ∧
  (∀ p ∈ st.video_paths, (lookupA st.fileDur p.2).isSome) ∧
  (∀ p d, lookupA st.fileDur p = some d → 0 ≤ d) ∧
  st.current_total_duration ≤ T

/-- One padding pass: no exception, the invariant is preserved, the
cumulative duration is monotone, stays at most `T`, new keys are
`"extra_"`-prefixed, and a pass whose snapshot contains the positive record
either finishes exactly at `T` or gains at least `d₀`. -/
lemma padForPass_progress (env : Env) (sd : String) (T : ℚ) (k₀ p₀ : String) (d₀ : ℚ)
    (hw : ∀ s2, env.writeFails (extra_clip_path sd s2) = false)
    (hk₀ : ∀ s2, k₀ ≠ "extra_" ++ s2)
    (hp₀ : ∀ s2, p₀ ≠ extra_clip_path sd s2) :
    ∀ (snap : List (String × String)) (st : PrimState), PadInv sd k₀ p₀ d₀ T st →
      (∀ p ∈ snap, (lookupA st.fileDur p.2).isSome) →
      ∃ st', padForPass env sd T st snap = .ok st' ∧ PadInv sd k₀ p₀ d₀ T st' ∧
        st.current_total_duration ≤ st'.current_total_duration ∧
        (∀ k v, lookupA st'.video_paths k = some v →
          lookupA st.video_paths k = some v ∨ extraPrefixed k) ∧
        ((k₀, p₀) ∈ snap →
          st'.current_total_duration = T ∨
          st.current_total_duration + d₀ ≤ st'.current_total_duration) := by
  intro snap
  induction snap with
  | nil =>
    intro st hinv _
    exact ⟨st, rfl, hinv, le_refl _, fun k v h => Or.inl h, by simp⟩
  | cons q rest ih =>
    obtain ⟨ts, path⟩ := q
    intro st hinv hsnap
    obtain ⟨hlk, hfd0, hall, hnn, hle⟩ := hinv
    obtain ⟨clipDur, hcd⟩ :=
      Option.isSome_iff_exists.mp (hsnap (ts, path) (List.mem_cons_self _ _))
    by_cases hrem : T - st.current_total_duration ≤ 0
    · have hTeq : st.current_total_duration = T := le_antisymm hle (by linarith)
      refine ⟨st, ?_, ⟨hlk, hfd0, hall, hnn, hle⟩, le_refl _,
        fun k v h => Or.inl h, fun _ => Or.inl hTeq⟩
      rw [padForPass]
      simp only [hcd, if_pos hrem]
    · have hcd0 : 0 ≤ clipDur := hnn path clipDur hcd
      set subDur : ℚ :=
        if clipDur > T - st.current_total_duration
        then T - st.current_total_duration else clipDur with hsubDur
      have hsub0 : 0 ≤ subDur := by
        rw [hsubDur]
        split
        · linarith
        · exact hcd0
      have hsuble : subDur ≤ T - st.current_total_duration := by
        rw [hsubDur]
        split
        · exact le_refl _
        · exact le_of_not_lt (by assumption)
      set st1 : PrimState :=
        { video_paths := dinsert st.video_paths ("extra_" ++ ts) (extra_clip_path sd ts),
          fileDur := dinsert st.fileDur (extra_clip_path sd ts) subDur,
          current_total_duration := st.current_total_duration + subDur,
          subclips := st.subclips } with hst1
      have hstep : padForPass env sd T st ((ts, path) :: rest) =
          if T ≤ st1.current_total_duration then .ok st1
          else padForPass env sd T st1 rest := by
        rw [padForPass]
        simp only [hcd, if_neg hrem, hw ts, Bool.false_eq_true, if_false, hsubDur, hst1]
      have hinv1 : PadInv sd k₀ p₀ d₀ T st1 := by
        refine ⟨?_, ?_, ?_, ?_, ?_⟩
        · rw [hst1]
          exact lookupA_dinsert_of_agree _ _ hlk (fun he => absurd he.symm (hk₀ ts))
        · rw [hst1]
          show lookupA (dinsert st.fileDur (extra_clip_path sd ts) subDur) p₀ = some d₀
          rw [lookupA_dinsert_ne _ _ _ _ (Ne.symm (hp₀ ts))]
          exact hfd0
        · intro p hp
          rw [hst1] at hp ⊢
          rcases mem_dinsert hp with h | h
          · exact lookupA_isSome_dinsert _ _ _ _ (hall p h)
          · rw [h]
            simp [lookupA_dinsert_self]
        · rw [hst1]
          exact nonneg_dinsert hnn hsub0
        · rw [hst1]
          show st.current_total_duration + subDur ≤ T
          linarith
      have hmono1 : st.current_total_duration ≤ st1.current_total_duration := by
        rw [hst1]
        show st.current_total_duration ≤ st.current_total_duration + subDur
        linarith
      have hprov1 : ∀ k v, lookupA st1.video_paths k = some v →
          lookupA st.video_paths k = some v ∨ extraPrefixed k := by
        intro k v hkv
        rw [hst1] at hkv
        by_cases hk : ("extra_" ++ ts : String) = k
        · right
          exact ⟨ts, hk.symm⟩
        · left
          rwa [lookupA_dinsert_ne _ _ _ _ hk] at hkv
      by_cases hdone : T ≤ st1.current_total_duration
      · refine ⟨st1, by rw [hstep, if_pos hdone], hinv1, hmono1, hprov1, fun _ => Or.inl ?_⟩
        exact le_antisymm hinv1.2.2.2.2 hdone
      · have hsnap1 : ∀ p ∈ rest, (lookupA st1.fileDur p.2).isSome := by
          intro p hp
          rw [hst1]
          exact lookupA_isSome_dinsert _ _ _ _ (hsnap p (List.mem_cons_of_mem _ hp))
        obtain ⟨st', hpp, hinv', hmono', hprov', hlast'⟩ := ih st1 hinv1 hsnap1
        refine ⟨st', by rw [hstep, if_neg hdone]; exact hpp, hinv',
          le_trans hmono1 hmono', ?_, ?_⟩
        · intro k v hkv
          rcases hprov' k v hkv with h | h
          · exact hprov1 k v h
          · exact Or.inr h
        · intro hmem
          rcases List.mem_cons.mp hmem with heq | hmemrest
          · have hts : ts = k₀ := congrArg Prod.fst heq.symm
            have hpath : path = p₀ := congrArg Prod.snd heq.symm
            have hclip : clipDur = d₀ := by
              rw [hpath] at hcd
              rw [hcd] at hfd0
              exact Option.some.inj hfd0
            by_cases hbig : clipDur > T - st.current_total_duration
            · exfalso
              apply hdone
              have : subDur = T - st.current_total_duration := by
                rw [hsubDur, if_pos hbig]
              rw [hst1]
              show T ≤ st.current_total_duration + subDur
              rw [this]
              linarith
            · have hsub : subDur = d₀ := by
                rw [hsubDur, if_neg hbig, hclip]
              right
              have h1 : st1.current_total_duration = st.current_total_duration + d₀ := by
                rw [hst1]
                show st.current_total_duration + subDur = st.current_total_duration + d₀
                rw [hsub]
              linarith [hmono']
          · rcases hlast' hmemrest with h | h
            · exact Or.inl h
            · right
              linarith [hmono1]

/-- Fuelled induction for C2: `n` passes suffice once
`T - cumulative ≤ n * d₀`. -/
lemma padWhile_reaches (env : Env) (sd : String) (T : ℚ) (k₀ p₀ : String) (d₀ : ℚ)
    (hw : ∀ s2, env.writeFails (extra_clip_path sd s2) = false)
    (hk₀ : ∀ s2, k₀ ≠ "extra_" ++ s2)
    (hp₀ : ∀ s2, p₀ ≠ extra_clip_path sd s2)
    (hT : T ≠ 0) :
    ∀ (n : ℕ) (st : PrimState), PadInv sd k₀ p₀ d₀ T st →
      T - st.current_total_duration ≤ n * d₀ →
      ∃ st', padWhile env sd (some T) (n + 1) st = some (.ok st') ∧
        st'.current_total_duration = T ∧
        (∀ k v, lookupA st'.video_paths k = some v →
          lookupA st.video_paths k = some v ∨ extraPrefixed k) := by
  intro n
  induction n with
  | zero =>
    intro st hinv hbound
    have h0 : T - st.current_total_duration ≤ 0 := by simpa using hbound
    have hEq : st.current_total_duration = T := le_antisymm hinv.2.2.2.2 (by linarith)
    have hg : (truthy (some T) &&
        decide (st.current_total_duration < (some T).getD 0)) = false := by
      simp [truthy, hEq]
    refine ⟨st, ?_, hEq, fun k v h => Or.inl h⟩
    rw [padWhile, hg]
    simp
  | succ n ih =>
    intro st hinv hbound
    by_cases hlt : st.current_total_duration < T
    · have hg : (truthy (some T) &&
          decide (st.current_total_duration < (some T).getD 0)) = true := by
        simp [truthy]
        exact ⟨hT, hlt⟩
      obtain ⟨st1, hpp, hinv1, hmono1, hprov1, hlast1⟩ :=
        padForPass_progress env sd T k₀ p₀ d₀ hw hk₀ hp₀ st.video_paths st hinv hinv.2.2.1
      have hmem : (k₀, p₀) ∈ st.video_paths := lookupA_mem hinv.1
      rw [padWhile, hg]
      simp only [if_true, Option.getD_some, hpp]
      rcases hlast1 hmem with hT1 | hstep
      · have hg1 : (truthy (some T) &&
            decide (st1.current_total_duration < (some T).getD 0)) = false := by
          simp [truthy, hT1]
        refine ⟨st1, ?_, hT1, hprov1⟩
        rw [padWhile, hg1]
        simp
      · have hbound1 : T - st1.current_total_duration ≤ n * d₀ := by
          have hcast : ((n + 1 : ℕ) : ℚ) = (n : ℚ) + 1 := by push_cast; ring
          rw [hcast] at hbound
          linarith
        obtain ⟨st', hrun, hT', hprov'⟩ := ih st1 hinv1 hbound1
        refine ⟨st', hrun, hT', ?_⟩
        intro k v hkv
        rcases hprov' k v hkv with h | h
        · exact hprov1 k v h
        · exact Or.inr h
    · have hEq : st.current_total_duration = T :=
        le_antisymm hinv.2.2.2.2 (le_of_not_lt hlt)
      have hg : (truthy (some T) &&
          decide (st.current_total_duration < (some T).getD 0)) = false := by
        simp [truthy, hEq]
      refine ⟨st, ?_, hEq, fun k v h => Or.inl h⟩
      rw [padWhile, hg]
      simp

/-- C2: if a target `T` is set, not yet reached, and some produced clip
record has positive duration, the padding loop terminates — some fuel
completes the `while` loop without an exception — with cumulative duration
exactly `T`, and every key it adds is `"extra_"`-prefixed (each written
sub-segment has length `min(remaining, recordDuration)` by definition of
`padForPass`). -/
theorem clip_videos_padding_reaches_target (env : Env) (sd : String) (T : ℚ)
    (st : PrimState) (k₀ p₀ : String) (d₀ : ℚ)
    (hw : ∀ s2, env.writeFails (extra_clip_path sd s2) = false)
    (hlk : lookupA st.video_paths k₀ = some p₀)
    (hk₀ : ∀ s2, k₀ ≠ "extra_" ++ s2)
    (hp₀ : ∀ s2, p₀ ≠ extra_clip_path sd s2)
    (hfd : lookupA st.fileDur p₀ = some d₀) (hd₀ : 0 < d₀)
    (hall : ∀ p ∈ st.video_paths, (lookupA st.fileDur p.2).isSome)
    (hnn : ∀ p d, lookupA st.fileDur p = some d → 0 ≤ d)
    (hcur : st.current_total_duration ≤ T) (hTpos : 0 < T) :
    ∃ fuel st', padWhile env sd (some T) fuel st = some (.ok st') ∧
      st'.current_total_duration = T ∧
      (∀ k v, lookupA st'.video_paths k = some v →
        lookupA st.video_paths k = some v ∨ extraPrefixed k) := by
  set n : ℕ := ⌈(T - st.current_total_duration) / d₀⌉₊ with hn
  have hbound : T - st.current_total_duration ≤ n * d₀ := by
    have h1 : (T - st.current_total_duration) / d₀ ≤ (n : ℚ) := Nat.le_ceil _
    have h2 : T - st.current_total_duration = ((T - st.current_total_duration) / d₀) * d₀ := by
      field_simp
    rw [h2]
    exact mul_le_mul_of_nonneg_right h1 (le_of_lt hd₀)
  obtain ⟨st', hrun, hT', hprov⟩ := padWhile_reaches env sd T k₀ p₀ d₀ hw hk₀ hp₀
    hTpos.ne' n st ⟨hlk, hfd, hall, hnn, hcur⟩ hbound
  exact ⟨n + 1, st', hrun, hT', hprov⟩

/-- Witness for C2: target 8, one primary record of duration 3, cumulative
6 after the primary pass. -/
theorem clip_videos_padding_reaches_target_witness :
    ∃ fuel st', padWhile (sampleEnv 10) "d" (some 8) fuel
        ⟨[("a", "f")], [("f", 3)], 6, []⟩ = some (.ok st') ∧
      st'.current_total_duration = 8 ∧
      (∀ k v, lookupA st'.video_paths k = some v →
        lookupA (⟨[("a", "f")], [("f", 3)], 6, []⟩ : PrimState).video_paths k = some v ∨
          extraPrefixed k) := by
  apply clip_videos_padding_reaches_target (sampleEnv 10) "d" 8
    ⟨[("a", "f")], [("f", 3)], 6, []⟩ "a" "f" 3
  · intro s2
    rfl
  · simp [lookupA]
  · intro s2 h
    have h2 := congrArg String.data h
    simp [String.data_append] at h2
  · intro s2 h
    have h2 := congrArg String.data h
    simp [extra_clip_path, joinPath, String.data_append] at h2
  · simp [lookupA]
  · norm_num
  · intro p hp
    simp at hp
    rw [hp]
    simp [lookupA]
  · intro p d h
    simp only [lookupA] at h
    split at h
    · injection h with hd
      rw [← hd]
      norm_num
    · exact Option.noConfusion h
  · norm_num
  · norm_num

/-- Witness for C9: one clip, all engine calls succeed. -/
theorem combine_clip_videos_contract_witness :
    combine_clip_videos (sampleEnv 10) "t" [("k", "p")] "out" =
      some ("out", [⟨1920, 1080, 30, 10⟩]) := by
  have h := combine_clip_videos_contract.2.2 (sampleEnv 10) "t" [("k", "p")] "out"
    (fun _ => ⟨1920, 1080, 30, 10⟩) (fun p _ => rfl) (by simp) rfl
  simpa using h

/-- Witness for C1: the spec's example segment `"5-12"` on a 10 s video with
a 3 s cap: end 12 clamps to 10, planned duration is `min(10-5, 3) = 3`, and
the requested subclip is `[5, 8)`. -/
theorem clip_videos_planned_duration_witness :
    specPlannedDuration 10 3 none 0 5 12 = 3 ∧
    processTimestamp (sampleEnv 10) "d" 10 3 none ⟨[], [], 0, []⟩ "5-12" =
      (⟨[("5-12", clip_path "d" "5-12")], [(clip_path "d" "5-12", 3)], 3, [(5, 8)]⟩, true) := by
  have hplan : specPlannedDuration 10 3 none 0 5 12 = 3 := by
    norm_num [specPlannedDuration, truthy, min_def]
  refine ⟨hplan, ?_⟩
  have h := clip_videos_planned_duration.1 (sampleEnv 10) "d" 10 3 none ⟨[], [], 0, []⟩
    "5-12" 5 12 parse_timestamp_5_12 (by norm_num) (by norm_num) rfl
  rw [h, hplan]
  norm_num [dinsert]
